import Mathlib

set_option maxHeartbeats 1000000

/-!
Shallow embedding of `src/sftp-batch-uploader/sftp_gui.py`, class `UploadWorker`
(the transfer orchestration engine: `run`, `_sleep`, `stop`).

External effects are modelled as oracles in `Env`, consumed in program order
via explicit call counters (`Counters`): the n-th call of `self._stop.is_set()`
reads `stop n`, the n-th `self._connect()` reads `connectOk n` / `connectErr n`,
the n-th `transport.is_active()` reads `active n`, the n-th `sftp.put` reads
`uploadErr n`, and the reply to the (at most one) confirmation request is
`reply`.  The worker's queue messages `("log", msg)`, `("timer", text)`,
`("done", flag)` and the `confirm_q` message become the `Event` stream; log
texts are carried structurally by `Msg`, whose exact source string is given by
`render`.
-/

namespace SftpGui

/-- Oracle for the worker's external effects, indexed by call order. -/
structure Env where
  stop : Nat → Bool
  connectOk : Nat → Bool
  connectErr : Nat → String
  home : String
  etaStr : String
  fileExists : String → Bool
  active : Nat → Bool
  uploadErr : Nat → Option String
  reply : Bool

/-- The `cfg` dict fields used by `UploadWorker.run` (credential fields that the
worker only forwards to paramiko are dropped; numeric fields are already ints). -/
structure Cfg where
  host : String
  port : String
  remote_dir : String
  use_delay : Bool
  delay : Nat
  use_test : Bool
  test_n : Nat
  start_delay_min : Nat

/-- Counts of oracle calls consumed so far: stop-flag checks, connects,
liveness checks, uploads. -/
structure Counters where
  sc : Nat
  cc : Nat
  ac : Nat
  uc : Nat
  deriving DecidableEq

/-- Python `f"{n:02d}"`. -/
def pad2 (n : Nat) : String :=
  if n < 10 then "0" ++ toString n else toString n

/-- The countdown tick text built in `UploadWorker._sleep`
(`f"{timer_prefix}  {mins:02d}m {secs:02d}s{suffix}"`). -/
def tickText (tp : String) (remaining total : Nat) : String :=
  tp ++ "  " ++ pad2 (remaining / 60) ++ "m " ++ pad2 (remaining % 60) ++ "s" ++
    (if total ≠ 0 then "  [" ++ toString total ++ "]" else "")

/-- `os.path.basename` for slash-separated paths. -/
def basename (p : String) : String :=
  (p.splitOn "/").getLastD ""

/-- Python `str.rstrip("/")`. -/
def rstripSlash (s : String) : String :=
  String.mk ((s.data.reverse.dropWhile (fun c => c = '/')).reverse)

/-- `remote_path = f"{remote_dir}/{fname}" if remote_dir else fname`. -/
def remotePath (rdir fname : String) : String :=
  if rdir = "" then fname else rdir ++ "/" ++ fname

/-- The distinct log messages `UploadWorker` can emit, carrying their variable
parts; `render` gives the exact source text. -/
inductive Msg where
  | scheduled (eta : String) (mins : Nat)
  | stoppedInitial
  | connecting (host port : String)
  | connected (home : String)
  | connectFailed (exc : String)
  | stoppedByUser
  | skip (idx total : Nat) (fname : String)
  | connLost
  | reconnected
  | reconnectFailed (exc : String)
  | uploading (idx total : Nat) (fname rpath : String)
  | uploadDone (idx total : Nat)
  | uploadError (idx total : Nat) (exc : String)
  | testBatchDone (n : Nat)
  | stoppedAfterTest
  | continuing
  | reconnectingAfterDelay
  deriving DecidableEq

/-- Exact log strings of the source (`self._log(...)` call sites). -/
def render : Msg → String
  | .scheduled eta mins =>
      "⏳ Upload scheduled to start at " ++ eta ++ " (" ++ toString mins ++
        " min). Keep this computer on and connected!"
  | .stoppedInitial => "⛔ Stopped during initial delay."
  | .connecting h p => "Connecting to " ++ h ++ ":" ++ p ++ " …"
  | .connected home => "Connected ✓  (remote home: " ++ home ++ ")"
  | .connectFailed e => "❌ Connection failed: " ++ e
  | .stoppedByUser => "⛔ Stopped by user."
  | .skip i t f => "[" ++ pad2 i ++ "/" ++ toString t ++ "] ⚠ SKIP (not found): " ++ f
  | .connLost => "   🔄 Connection lost — reconnecting …"
  | .reconnected => "   🔄 Reconnected ✓"
  | .reconnectFailed e => "   ❌ Reconnect failed: " ++ e
  | .uploading i t f r =>
      "[" ++ pad2 i ++ "/" ++ toString t ++ "] Uploading " ++ f ++ " → " ++ r ++ " …"
  | .uploadDone i t => "[" ++ pad2 i ++ "/" ++ toString t ++ "] ✓ done"
  | .uploadError i t e => "[" ++ pad2 i ++ "/" ++ toString t ++ "] ❌ Error: " ++ e
  | .testBatchDone n => "\n── Test batch done (" ++ toString n ++ " files) ──"
  | .stoppedAfterTest => "Stopped after test batch."
  | .continuing => "Continuing …\n"
  | .reconnectingAfterDelay => "   🔄 Reconnecting after long delay …"

/-- Messages the worker puts on its queues, in program order:
`("log", msg)` ↦ `log`, `("timer", text)` ↦ `timer`, the `confirm_q` request
↦ `confirm`, `("done", flag)` ↦ `done`. -/
inductive Event where
  | log (m : Msg)
  | timer (text : String)
  | confirm
  | done (flag : Bool)
  deriving DecidableEq

/-- `UploadWorker._sleep(seconds, timer_prefix, total)`: recursion on the
remaining seconds (`remaining = seconds - elapsed`), threading the stop-check
counter.  Returns the timer events emitted, the return value (`False` iff
stopped early), and the new stop-check counter. -/
def sleepAux (env : Env) (tp : String) (total : Nat) : Nat → Nat → List Event × Bool × Nat
  | 0, sc => ((if tp = "" then [] else [Event.timer ""]), true, sc)
  | r + 1, sc =>
      if env.stop sc then ([], false, sc + 1)
      else
        let tick : List Event :=
          if tp = "" then [] else [Event.timer (tickText tp (r + 1) total)]
        let rest := sleepAux env tp total r (sc + 1)
        (tick ++ rest.1, rest.2.1, rest.2.2)

/-- Lines 131–136: `sftp.put` plus its success/error logs. -/
def doUpload (env : Env) (total idx : Nat) (fname rpath : String) (k : Counters) :
    List Event × Counters :=
  match env.uploadErr k.uc with
  | none =>
      ([Event.log (Msg.uploading idx total fname rpath), Event.log (Msg.uploadDone idx total)],
        { k with uc := k.uc + 1 })
  | some e =>
      ([Event.log (Msg.uploading idx total fname rpath), Event.log (Msg.uploadError idx total e)],
        { k with uc := k.uc + 1 })

/-- Lines 115–136: existence check, liveness check with one reconnect attempt
(failure breaks the loop), then the upload.  The middle `Bool` is `false` iff
the iteration `break`s. -/
def uploadPhase (env : Env) (rdir : String) (total idx : Nat) (fpath : String) (k : Counters) :
    List Event × Bool × Counters :=
  let fname := basename fpath
  let rpath := remotePath rdir fname
  if env.fileExists fpath = false then
    ([Event.log (Msg.skip idx total fname)], true, k)
  else
    if env.active k.ac then
      let d := doUpload env total idx fname rpath { k with ac := k.ac + 1 }
      (d.1, true, d.2)
    else
      let k1 : Counters := { k with ac := k.ac + 1 }
      if env.connectOk k1.cc then
        let d := doUpload env total idx fname rpath { k1 with cc := k1.cc + 1 }
        (Event.log Msg.connLost :: Event.log Msg.reconnected :: d.1, true, d.2)
      else
        ([Event.log Msg.connLost, Event.log (Msg.reconnectFailed (env.connectErr k1.cc))],
          false, { k1 with cc := k1.cc + 1 })

/-- Lines 138–146: the test-batch pause (`if test_count and idx == test_count`). -/
def testPause (env : Env) (tc idx : Nat) (k : Counters) : List Event × Bool × Counters :=
  if tc ≠ 0 ∧ idx = tc then
    if env.reply then
      ([Event.log (Msg.testBatchDone tc), Event.confirm, Event.log Msg.continuing], true, k)
    else
      ([Event.log (Msg.testBatchDone tc), Event.confirm, Event.log Msg.stoppedAfterTest],
        false, k)
  else ([], true, k)

/-- Lines 148–161: the inter-file delay (`if delay and idx < total and not
self._stop.is_set()`), the post-wait `self._timer("")`, and the proactive
reconnect when `delay >= RECONNECT_THRESH` (55) and the transport is inactive. -/
def interDelay (env : Env) (delay total idx : Nat) (k : Counters) : List Event × Bool × Counters :=
  if delay ≠ 0 ∧ idx < total then
    if env.stop k.sc then ([], true, { k with sc := k.sc + 1 })
    else
      let s := sleepAux env "⏱  Next upload in" (idx + 1) delay (k.sc + 1)
      if s.2.1 = false then (s.1, false, { k with sc := s.2.2 })
      else
        let evs := s.1 ++ [Event.timer ""]
        let k1 : Counters := { k with sc := s.2.2 }
        if 55 ≤ delay then
          if env.active k1.ac then (evs, true, { k1 with ac := k1.ac + 1 })
          else
            let k2 : Counters := { k1 with ac := k1.ac + 1 }
            if env.connectOk k2.cc then
              (evs ++ [Event.log Msg.reconnectingAfterDelay, Event.log Msg.reconnected],
                true, { k2 with cc := k2.cc + 1 })
            else
              (evs ++ [Event.log Msg.reconnectingAfterDelay,
                  Event.log (Msg.reconnectFailed (env.connectErr k2.cc))],
                false, { k2 with cc := k2.cc + 1 })
        else (evs, true, k1)
  else ([], true, k)

/-- One iteration of the per-file loop (lines 110–161): stop check, then the
three phases.  The middle `Bool` is `false` iff the loop `break`s here. -/
def step (env : Env) (rdir : String) (delay tc total idx : Nat) (fpath : String) (k : Counters) :
    List Event × Bool × Counters :=
  if env.stop k.sc then
    ([Event.log Msg.stoppedByUser], false, { k with sc := k.sc + 1 })
  else
    let u := uploadPhase env rdir total idx fpath { k with sc := k.sc + 1 }
    if u.2.1 = false then (u.1, false, u.2.2)
    else
      let t := testPause env tc idx u.2.2
      if t.2.1 = false then (u.1 ++ t.1, false, t.2.2)
      else
        let d := interDelay env delay total idx t.2.2
        (u.1 ++ t.1 ++ d.1, d.2.1, d.2.2)

/-- The `for idx, fpath in enumerate(files, 1)` loop. -/
def loopGo (env : Env) (rdir : String) (delay tc total : Nat) :
    List String → Nat → Counters → List Event × Counters
  | [], _, k => ([], k)
  | f :: fs, idx, k =>
      let s := step env rdir delay tc total idx f k
      if s.2.1 then
        let rest := loopGo env rdir delay tc total fs (idx + 1) s.2.2
        (s.1 ++ rest.1, rest.2)
      else (s.1, s.2.2)

/-- Lines 80–90: the initial delay block.  Returns the events emitted, whether
the run proceeds past the block (`false` = early `return` after
`("done", False)`), and the stop-check counter. -/
def preDelay (env : Env) (cfg : Cfg) : List Event × Bool × Nat :=
  let start_delay := cfg.start_delay_min * 60
  if start_delay > 0 then
    let s := sleepAux env "⏳ Starting in" 0 start_delay 0
    if s.2.1 = false then
      (Event.log (Msg.scheduled env.etaStr cfg.start_delay_min) ::
          (s.1 ++ [Event.log Msg.stoppedInitial, Event.done false]),
        false, s.2.2)
    else
      (Event.log (Msg.scheduled env.etaStr cfg.start_delay_min) :: (s.1 ++ [Event.timer ""]),
        true, s.2.2)
  else ([], true, 0)

/-- `UploadWorker.run` (lines 75–168): initial delay, connect (fatal on
failure), the per-file loop, and the `finally` block's `("done", True)`. -/
def run (env : Env) (cfg : Cfg) (files : List String) : List Event :=
  let p := preDelay env cfg
  if p.2.1 = false then p.1
  else
    let connectingEv := Event.log (Msg.connecting cfg.host cfg.port)
    if env.connectOk 0 then
      let rdir := rstripSlash cfg.remote_dir
      let delay := if cfg.use_delay then cfg.delay else 0
      let tc := if cfg.use_test then cfg.test_n else 0
      let l := loopGo env rdir delay tc files.length files 1 ⟨p.2.2, 1, 0, 0⟩
      p.1 ++ [connectingEv, Event.log (Msg.connected env.home)] ++ l.1 ++ [Event.done true]
    else
      p.1 ++ [connectingEv, Event.log (Msg.connectFailed (env.connectErr 0)), Event.done false]

/-- The run is cancelled during the pre-start wait: some stop-flag check made
during the `start_delay` seconds reads `true` (the initial sleep consumes
checks `0 .. start_delay - 1`, one per elapsed second). -/
def stoppedDuringDelay (env : Env) (cfg : Cfg) : Bool :=
  !decide (∀ i, i < cfg.start_delay_min * 60 → env.stop i = false)

/-- `UploadWorker.stop` / `threading.Event.set`: one-way flag set. -/
def setStop (_flag : Bool) : Bool := true

/-- The stop flag a check at time `n` observes, given the times at which
`stop()` was requested: each request at time `t ≤ n` has applied `setStop`. -/
def stopFlagFrom (reqs : List Nat) : Nat → Bool :=
  fun n => reqs.foldl (fun b t => if t ≤ n then setStop b else b) false

/-! Event classifiers used by the specifications. -/

/-- An upload attempt log (`"[i/N] Uploading …"`). -/
def isUp : Event → Bool
  | .log (Msg.uploading _ _ _ _) => true
  | _ => false

/-- A missing-file skip log. -/
def isSkipEv : Event → Bool
  | .log (Msg.skip _ _ _) => true
  | _ => false

/-- A per-file iteration marker: the iteration either skips or uploads. -/
def isIter (e : Event) : Bool := isUp e || isSkipEv e

def isConfirmEv : Event → Bool
  | .confirm => true
  | _ => false

def isDoneEv : Event → Bool
  | .done _ => true
  | _ => false

def isTimerEv : Event → Bool
  | .timer _ => true
  | _ => false

/-- An event of the connect stage (attempting/holding/failing a session). -/
def isConnectEv : Event → Bool
  | .log (Msg.connecting _ _) => true
  | .log (Msg.connected _) => true
  | .log (Msg.connectFailed _) => true
  | _ => false

/-- An event originating from the per-file loop body. -/
def isPerFile : Event → Bool
  | .confirm => true
  | .log Msg.stoppedByUser => true
  | .log (Msg.skip _ _ _) => true
  | .log Msg.connLost => true
  | .log Msg.reconnected => true
  | .log (Msg.reconnectFailed _) => true
  | .log (Msg.uploading _ _ _ _) => true
  | .log (Msg.uploadDone _ _) => true
  | .log (Msg.uploadError _ _ _) => true
  | .log (Msg.testBatchDone _) => true
  | .log Msg.stoppedAfterTest => true
  | .log Msg.continuing => true
  | .log Msg.reconnectingAfterDelay => true
  | _ => false

/-! Concrete environments and configurations used to instantiate theorems. -/

/-- A quiet environment: never stopped, connects succeed, files exist,
transport active, uploads succeed, confirmation answered `True`. -/
def envQuiet : Env :=
  { stop := fun _ => false
    connectOk := fun _ => true
    connectErr := fun _ => "err"
    home := "/home/u"
    etaStr := "12:00:00"
    fileExists := fun _ => true
    active := fun _ => true
    uploadErr := fun _ => none
    reply := true }

/-- Stop requested just after the first stop-flag check. -/
def envStopEarly : Env := { envQuiet with stop := fun n => decide (1 ≤ n) }

/-- Stop flag already set when the run begins. -/
def envStopAlways : Env := { envQuiet with stop := fun _ => true }

/-- Every connect attempt fails. -/
def envNoConnect : Env := { envQuiet with connectOk := fun _ => false }

/-- No local file exists. -/
def envNoFile : Env := { envQuiet with fileExists := fun _ => false }

/-- Minimal configuration: no delays, no test batch. -/
def cfgPlain : Cfg :=
  { host := "h", port := "22", remote_dir := "", use_delay := false, delay := 0,
    use_test := false, test_n := 1, start_delay_min := 0 }

/-- One-minute start delay. -/
def cfgDelay1 : Cfg := { cfgPlain with start_delay_min := 1 }

/-- Test batch after the first file. -/
def cfgTest1 : Cfg := { cfgPlain with use_test := true, test_n := 1 }

/-! ## Basic lemmas about strings and the waiter -/

theorem append_ne_empty_left (a b : String) (h : a ≠ "") : a ++ b ≠ "" := by
  intro hc
  apply h
  apply String.ext
  have hd := congrArg String.data hc
  rw [String.data_append] at hd
  have h0 : a.data = [] := (List.append_eq_nil.mp hd).1
  rw [h0]

theorem tickText_ne_empty {tp : String} (r total : Nat) (h : tp ≠ "") :
    tickText tp r total ≠ "" := by
  unfold tickText
  apply append_ne_empty_left
  apply append_ne_empty_left
  apply append_ne_empty_left
  apply append_ne_empty_left
  apply append_ne_empty_left
  exact append_ne_empty_left _ _ h

/-- Every event `_sleep` emits is a timer event. -/
theorem sleep_timers (env : Env) (tp : String) (total : Nat) :
    ∀ s sc, ∀ e ∈ (sleepAux env tp total s sc).1, isTimerEv e = true := by
  intro s
  induction s with
  | zero =>
      intro sc e he
      simp only [sleepAux] at he
      split at he
      · exact absurd he (List.not_mem_nil e)
      · rw [List.mem_singleton] at he
        subst he
        rfl
  | succ r ih =>
      intro sc e he
      simp only [sleepAux] at he
      split at he
      · exact absurd he (List.not_mem_nil e)
      · rw [List.mem_append] at he
        rcases he with hm | hm
        · split at hm
          · exact absurd hm (List.not_mem_nil e)
          · rw [List.mem_singleton] at hm
            subst hm
            rfl
        · exact ih (sc + 1) e hm

theorem sleep_countP_zero (env : Env) (tp : String) (total s sc : Nat) (p : Event → Bool)
    (hp : ∀ t, p (Event.timer t) = false) :
    ((sleepAux env tp total s sc).1).countP p = 0 := by
  rw [List.countP_eq_zero]
  intro e he
  have ht := sleep_timers env tp total s sc e he
  cases e <;> simp [isTimerEv] at ht ⊢
  exact hp _

/-- `_sleep` returns `True` exactly when no stop-flag check made during the
wait (checks `sc .. sc+s-1`, one per elapsed second) reads `true`. -/
theorem sleep_ok (env : Env) (tp : String) (total : Nat) :
    ∀ s sc, (sleepAux env tp total s sc).2.1
      = decide (∀ i, i < s → env.stop (sc + i) = false) := by
  intro s
  induction s with
  | zero => intro sc; simp [sleepAux]
  | succ r ih =>
      intro sc
      cases hstop : env.stop sc
      · simp only [sleepAux, hstop, Bool.false_eq_true, if_false]
        rw [ih (sc + 1), decide_eq_decide]
        constructor
        · intro hall i hi
          cases i with
          | zero => simpa using hstop
          | succ j =>
              have hj := hall j (by omega)
              rw [show sc + (j + 1) = sc + 1 + j by omega]
              exact hj
        · intro hall i hi
          have hj := hall (i + 1) (by omega)
          rw [show sc + 1 + i = sc + (i + 1) by omega]
          exact hj
      · simp only [sleepAux, hstop, if_true]
        symm
        rw [decide_eq_false_iff_not]
        intro hall
        have h0 := hall 0 (by omega)
        rw [Nat.add_zero, hstop] at h0
        exact absurd h0 (by simp)

/-- When a wait with a timer label runs its full duration, its last emitted
event is the clearing `timer ""`. -/
theorem sleep_last (env : Env) (tp : String) (total : Nat) (h : tp ≠ "") :
    ∀ s sc, (sleepAux env tp total s sc).2.1 = true →
      ((sleepAux env tp total s sc).1).getLast? = some (Event.timer "") := by
  intro s
  induction s with
  | zero => intro sc _; simp [sleepAux, h]
  | succ r ih =>
      intro sc hok
      cases hstop : env.stop sc
      · simp only [sleepAux, hstop, Bool.false_eq_true, if_false] at hok ⊢
        rw [List.getLast?_append, ih (sc + 1) hok]
        rfl
      · simp [sleepAux, hstop] at hok

/-- When a wait with a timer label is interrupted by cancellation, no clearing
`timer ""` is emitted at all. -/
theorem sleep_no_clear (env : Env) (tp : String) (total : Nat) (h : tp ≠ "") :
    ∀ s sc, (sleepAux env tp total s sc).2.1 = false →
      Event.timer "" ∉ (sleepAux env tp total s sc).1 := by
  intro s
  induction s with
  | zero => intro sc hok; simp [sleepAux, h] at hok
  | succ r ih =>
      intro sc hok
      cases hstop : env.stop sc
      · simp only [sleepAux, hstop, Bool.false_eq_true, if_false] at hok ⊢
        intro hmem
        rw [List.mem_append] at hmem
        rcases hmem with hm | hm
        · rw [if_neg h, List.mem_singleton, Event.timer.injEq] at hm
          exact tickText_ne_empty (r + 1) total h hm.symm
        · exact ih (sc + 1) hok hm
      · simp [sleepAux, hstop]

/-! ## No phase of the loop emits a `done` event -/

theorem countP_zero_of (l : List Event) (p : Event → Bool) (h : ∀ e ∈ l, p e = false) :
    l.countP p = 0 :=
  List.countP_eq_zero.mpr fun e he => by simp [h e he]

/-- A timer event matches none of the log/confirm/done classifiers. -/
theorem timer_not_classified (e : Event) (ht : isTimerEv e = true) :
    isUp e = false ∧ isSkipEv e = false ∧ isConfirmEv e = false ∧ isDoneEv e = false ∧
      isConnectEv e = false ∧ isPerFile e = false ∧ isIter e = false := by
  cases e with
  | log m => exact absurd ht (by simp [isTimerEv])
  | timer t => exact ⟨rfl, rfl, rfl, rfl, rfl, rfl, rfl⟩
  | confirm => exact absurd ht (by simp [isTimerEv])
  | done b => exact absurd ht (by simp [isTimerEv])

theorem doUpload_shape (env : Env) (total idx : Nat) (fname rpath : String) (k : Counters) :
    ∃ m, doUpload env total idx fname rpath k =
        ([Event.log (Msg.uploading idx total fname rpath), Event.log m],
          { k with uc := k.uc + 1 }) ∧
      isUp (Event.log m) = false ∧ isSkipEv (Event.log m) = false ∧
      isConfirmEv (Event.log m) = false ∧ isDoneEv (Event.log m) = false := by
  unfold doUpload
  cases h : env.uploadErr k.uc
  · exact ⟨Msg.uploadDone idx total, rfl, rfl, rfl, rfl, rfl⟩
  · exact ⟨Msg.uploadError idx total _, rfl, rfl, rfl, rfl, rfl⟩

theorem doUpload_no_done (env : Env) (total idx : Nat) (fname rpath : String) (k : Counters) :
    ((doUpload env total idx fname rpath k).1).countP isDoneEv = 0 := by
  obtain ⟨m, heq, -, -, -, hd⟩ := doUpload_shape env total idx fname rpath k
  rw [heq]
  simp [List.countP_cons, hd, isDoneEv]

theorem uploadPhase_no_done (env : Env) (rdir : String) (total idx : Nat) (f : String)
    (k : Counters) : ((uploadPhase env rdir total idx f k).1).countP isDoneEv = 0 := by
  simp only [uploadPhase]
  split_ifs with h1 h2 h3 <;>
    simp [List.countP_cons, doUpload_no_done, isDoneEv]

theorem testPause_no_done (env : Env) (tc idx : Nat) (k : Counters) :
    ((testPause env tc idx k).1).countP isDoneEv = 0 := by
  simp only [testPause]
  split_ifs with h1 h2 <;> simp [List.countP_cons, isDoneEv, isConfirmEv]

theorem interDelay_no_done (env : Env) (delay total idx : Nat) (k : Counters) :
    ((interDelay env delay total idx k).1).countP isDoneEv = 0 := by
  have hs := sleep_countP_zero env "⏱  Next upload in" (idx + 1) delay (k.sc + 1) isDoneEv
    fun _ => rfl
  simp only [interDelay]
  split_ifs with h1 h2 h3 h4 h5 h6 <;>
    simp [List.countP_append, List.countP_cons, hs, isDoneEv]

theorem step_no_done (env : Env) (rdir : String) (delay tc total idx : Nat) (f : String)
    (k : Counters) : ((step env rdir delay tc total idx f k).1).countP isDoneEv = 0 := by
  simp only [step]
  split_ifs with h1 h2 h3 <;>
    simp [List.countP_append, List.countP_cons, uploadPhase_no_done, testPause_no_done,
      interDelay_no_done, isDoneEv]

theorem loopGo_no_done (env : Env) (rdir : String) (delay tc total : Nat) :
    ∀ fs idx k, ((loopGo env rdir delay tc total fs idx k).1).countP isDoneEv = 0 := by
  intro fs
  induction fs with
  | nil => intro idx k; simp [loopGo]
  | cons f fs ih =>
      intro idx k
      simp only [loopGo]
      split_ifs with h
      · simp [List.countP_append, step_no_done, ih]
      · simp [step_no_done]

/-! ## Decomposing `preDelay` and `run` -/

/-- The initial-delay block lets the run proceed exactly when no stop-flag
check made during the pre-start wait reads `true`. -/
theorem preDelay_ok (env : Env) (cfg : Cfg) :
    (preDelay env cfg).2.1 = !stoppedDuringDelay env cfg := by
  have hs := sleep_ok env "⏳ Starting in" 0 (cfg.start_delay_min * 60) 0
  simp only [Nat.zero_add] at hs
  simp only [preDelay, stoppedDuringDelay, Bool.not_not]
  split_ifs with h1 h2
  · rw [h2] at hs
    exact hs
  · have h2t : (sleepAux env "⏳ Starting in" 0 (cfg.start_delay_min * 60) 0).2.1 = true := by
      revert h2
      cases (sleepAux env "⏳ Starting in" 0 (cfg.start_delay_min * 60) 0).2.1 <;> simp
    rw [h2t] at hs
    exact hs
  · symm
    rw [decide_eq_true_eq]
    intro i hi
    exact absurd hi (by omega)

theorem preDelay_fail_eq (env : Env) (cfg : Cfg) (h : (preDelay env cfg).2.1 = false) :
    (preDelay env cfg).1 =
      Event.log (Msg.scheduled env.etaStr cfg.start_delay_min) ::
        ((sleepAux env "⏳ Starting in" 0 (cfg.start_delay_min * 60) 0).1 ++
          [Event.log Msg.stoppedInitial, Event.done false]) := by
  simp only [preDelay] at h ⊢
  split_ifs at h ⊢ with h1 h2
  rfl

theorem preDelay_ok_events (env : Env) (cfg : Cfg) (h : (preDelay env cfg).2.1 = true) :
    ∀ e ∈ (preDelay env cfg).1,
      isTimerEv e = true ∨ e = Event.log (Msg.scheduled env.etaStr cfg.start_delay_min) := by
  simp only [preDelay] at h ⊢
  split_ifs at h ⊢ with h1 h2
  · intro e he
    rw [List.mem_cons] at he
    rcases he with he | he
    · exact Or.inr he
    · rw [List.mem_append] at he
      rcases he with he | he
      · exact Or.inl (sleep_timers env _ 0 _ 0 e he)
      · rw [List.mem_singleton] at he
        subst he
        exact Or.inl rfl
  · intro e he
    exact absurd he (by simp)

theorem run_stopped (env : Env) (cfg : Cfg) (files : List String)
    (h : (preDelay env cfg).2.1 = false) :
    run env cfg files = (preDelay env cfg).1 := by
  simp only [run, h, if_pos]

theorem run_proceed (env : Env) (cfg : Cfg) (files : List String)
    (h : (preDelay env cfg).2.1 = true) (hc : env.connectOk 0 = true) :
    run env cfg files =
      (preDelay env cfg).1 ++
        [Event.log (Msg.connecting cfg.host cfg.port), Event.log (Msg.connected env.home)] ++
        (loopGo env (rstripSlash cfg.remote_dir) (if cfg.use_delay then cfg.delay else 0)
            (if cfg.use_test then cfg.test_n else 0) files.length files 1
            ⟨(preDelay env cfg).2.2, 1, 0, 0⟩).1 ++
        [Event.done true] := by
  simp only [run, h, hc]
  simp

theorem run_connfail (env : Env) (cfg : Cfg) (files : List String)
    (h : (preDelay env cfg).2.1 = true) (hc : env.connectOk 0 = false) :
    run env cfg files =
      (preDelay env cfg).1 ++
        [Event.log (Msg.connecting cfg.host cfg.port),
          Event.log (Msg.connectFailed (env.connectErr 0)), Event.done false] := by
  simp only [run, h, hc]
  simp

/-- Every run is some `done`-free event list followed by a single terminal
`done` event whose flag is `true` iff the pre-start wait was not cancelled and
the initial connect succeeded. -/
theorem run_shape (env : Env) (cfg : Cfg) (files : List String) :
    ∃ X, run env cfg files
        = X ++ [Event.done ((!stoppedDuringDelay env cfg) && env.connectOk 0)] ∧
      X.countP isDoneEv = 0 := by
  have hpd := preDelay_ok env cfg
  cases hp : (preDelay env cfg).2.1
  · have hsd : stoppedDuringDelay env cfg = true := by
      rw [hp] at hpd
      cases hx : stoppedDuringDelay env cfg
      · rw [hx] at hpd; exact absurd hpd.symm (by simp)
      · rfl
    refine ⟨Event.log (Msg.scheduled env.etaStr cfg.start_delay_min) ::
        ((sleepAux env "⏳ Starting in" 0 (cfg.start_delay_min * 60) 0).1 ++
          [Event.log Msg.stoppedInitial]), ?_, ?_⟩
    · rw [run_stopped env cfg files hp, preDelay_fail_eq env cfg hp, hsd]
      simp
    · have hs := sleep_countP_zero env "⏳ Starting in" 0 (cfg.start_delay_min * 60) 0 isDoneEv
        fun _ => rfl
      simp [List.countP_append, List.countP_cons, hs, isDoneEv]
  · have hsd : stoppedDuringDelay env cfg = false := by
      rw [hp] at hpd
      cases hx : stoppedDuringDelay env cfg
      · rfl
      · rw [hx] at hpd; exact absurd hpd.symm (by simp)
    have hpre0 : ((preDelay env cfg).1).countP isDoneEv = 0 := by
      apply countP_zero_of
      intro e he
      rcases preDelay_ok_events env cfg hp e he with ht | ht
      · exact (timer_not_classified e ht).2.2.2.1
      · subst ht; rfl
    cases hc : env.connectOk 0
    · refine ⟨(preDelay env cfg).1 ++
        [Event.log (Msg.connecting cfg.host cfg.port),
          Event.log (Msg.connectFailed (env.connectErr 0))], ?_, ?_⟩
      · rw [run_connfail env cfg files hp hc, hsd]
        simp
      · simp [List.countP_append, List.countP_cons, hpre0, isDoneEv]
    · refine ⟨(preDelay env cfg).1 ++
        [Event.log (Msg.connecting cfg.host cfg.port), Event.log (Msg.connected env.home)] ++
        (loopGo env (rstripSlash cfg.remote_dir) (if cfg.use_delay then cfg.delay else 0)
            (if cfg.use_test then cfg.test_n else 0) files.length files 1
            ⟨(preDelay env cfg).2.2, 1, 0, 0⟩).1, ?_, ?_⟩
      · rw [run_proceed env cfg files hp hc, hsd]
        simp
      · simp [List.countP_append, List.countP_cons, hpre0, loopGo_no_done, isDoneEv]

/-! ## Phase lemmas -/

theorem timer_event_flags (t : String) :
    isUp (Event.timer t) = false ∧ isSkipEv (Event.timer t) = false ∧
      isConfirmEv (Event.timer t) = false ∧ isDoneEv (Event.timer t) = false :=
  ⟨rfl, rfl, rfl, rfl⟩

/-- A missing local file: the iteration reduces to the skip log, consuming no
liveness check, no connect and no upload, and never breaking the loop. -/
theorem uploadPhase_missing (env : Env) (rdir : String) (total idx : Nat) (f : String)
    (k : Counters) (h : env.fileExists f = false) :
    uploadPhase env rdir total idx f k
      = ([Event.log (Msg.skip idx total (basename f))], true, k) := by
  simp [uploadPhase, h]

theorem testPause_not_fire (env : Env) (tc idx : Nat) (k : Counters)
    (h : ¬(tc ≠ 0 ∧ idx = tc)) : testPause env tc idx k = ([], true, k) := by
  simp only [testPause]
  rw [if_neg h]

/-- When every connect attempt succeeds, the upload phase never breaks the
loop, contributes exactly one iteration marker, no confirmation, and one
upload-attempt log exactly when the file exists. -/
theorem uploadPhase_quiet (env : Env) (rdir : String) (total idx : Nat) (f : String)
    (k : Counters) (hconn : ∀ n, env.connectOk n = true) :
    (uploadPhase env rdir total idx f k).2.1 = true ∧
      ((uploadPhase env rdir total idx f k).1).countP isIter = 1 ∧
      ((uploadPhase env rdir total idx f k).1).countP isConfirmEv = 0 ∧
      ((uploadPhase env rdir total idx f k).1).countP isUp
        = (if env.fileExists f then 1 else 0) := by
  cases hex : env.fileExists f
  · rw [uploadPhase_missing env rdir total idx f k hex]
    simp [isIter, isUp, isSkipEv, isConfirmEv, List.countP_cons]
  · simp only [uploadPhase, hex]
    cases hact : env.active k.ac
    · cases herr : env.uploadErr k.uc <;>
        simp [hact, hconn, doUpload, herr, isIter, isUp, isSkipEv, isConfirmEv,
          List.countP_cons]
    · cases herr : env.uploadErr k.uc <;>
        simp [hact, doUpload, herr, isIter, isUp, isSkipEv, isConfirmEv, List.countP_cons]

/-- When the run is never cancelled and every connect succeeds, the inter-file
delay phase never breaks the loop and contributes no iteration marker, no
upload log, no confirmation and no terminal event. -/
theorem interDelay_quiet (env : Env) (delay total idx : Nat) (k : Counters)
    (hstop : ∀ n, env.stop n = false) (hconn : ∀ n, env.connectOk n = true) :
    (interDelay env delay total idx k).2.1 = true ∧
      ∀ e ∈ (interDelay env delay total idx k).1,
        isUp e = false ∧ isSkipEv e = false ∧ isConfirmEv e = false ∧ isDoneEv e = false := by
  by_cases hcond : delay ≠ 0 ∧ idx < total
  · have hok : (sleepAux env "⏱  Next upload in" (idx + 1) delay (k.sc + 1)).2.1 = true := by
      rw [sleep_ok]
      simp [hstop]
    have hsl : ∀ e ∈ (sleepAux env "⏱  Next upload in" (idx + 1) delay (k.sc + 1)).1,
        isUp e = false ∧ isSkipEv e = false ∧ isConfirmEv e = false ∧ isDoneEv e = false := by
      intro e he
      have ht := sleep_timers env _ _ _ _ e he
      obtain ⟨a, b, c, d, -, -, -⟩ := timer_not_classified e ht
      exact ⟨a, b, c, d⟩
    constructor
    · simp only [interDelay]
      rw [if_pos hcond, hstop k.sc]
      simp only [Bool.false_eq_true, if_false, hok, Bool.true_eq_false, hconn]
      split_ifs <;> rfl
    · intro e
      simp only [interDelay]
      rw [if_pos hcond, hstop k.sc]
      simp only [Bool.false_eq_true, if_false, hok, Bool.true_eq_false, hconn, if_true]
      split_ifs with h55 hact
      · intro he
        rcases List.mem_append.mp he with h1 | h1
        · exact hsl e h1
        · rw [List.mem_singleton] at h1
          subst h1
          exact timer_event_flags ""
      · intro he
        rcases List.mem_append.mp he with h1 | h1
        · rcases List.mem_append.mp h1 with h2 | h2
          · exact hsl e h2
          · rw [List.mem_singleton] at h2
            subst h2
            exact timer_event_flags ""
        · rcases List.mem_cons.mp h1 with h2 | h2
          · subst h2; exact ⟨rfl, rfl, rfl, rfl⟩
          · rw [List.mem_singleton] at h2
            subst h2; exact ⟨rfl, rfl, rfl, rfl⟩
      · intro he
        rcases List.mem_append.mp he with h1 | h1
        · exact hsl e h1
        · rw [List.mem_singleton] at h1
          subst h1
          exact timer_event_flags ""
  · have hnone : interDelay env delay total idx k = ([], true, k) := by
      simp only [interDelay]
      rw [if_neg hcond]
    rw [hnone]
    exact ⟨rfl, fun e he => absurd he (by simp)⟩

theorem countP_flags_zero (l : List Event)
    (h : ∀ e ∈ l, isUp e = false ∧ isSkipEv e = false ∧ isConfirmEv e = false ∧
      isDoneEv e = false) :
    l.countP isIter = 0 ∧ l.countP isUp = 0 ∧ l.countP isConfirmEv = 0 :=
  ⟨countP_zero_of _ _ fun e he => by simp [isIter, (h e he).1, (h e he).2.1],
    countP_zero_of _ _ fun e he => (h e he).1,
    countP_zero_of _ _ fun e he => (h e he).2.2.1⟩

/-- A quiet iteration (no cancellation, connects succeed, confirmation answered
`True`): the loop continues, exactly one iteration marker is produced, one
upload-attempt log iff the file exists, and one confirmation iff this is the
checkpoint index. -/
theorem step_nominal (env : Env) (rdir : String) (delay tc total idx : Nat) (f : String)
    (k : Counters) (hstop : ∀ n, env.stop n = false) (hconn : ∀ n, env.connectOk n = true)
    (hreply : env.reply = true) :
    (step env rdir delay tc total idx f k).2.1 = true ∧
      ((step env rdir delay tc total idx f k).1).countP isIter = 1 ∧
      ((step env rdir delay tc total idx f k).1).countP isUp
        = (if env.fileExists f then 1 else 0) ∧
      ((step env rdir delay tc total idx f k).1).countP isConfirmEv
        = (if tc ≠ 0 ∧ idx = tc then 1 else 0) := by
  by_cases htc : tc ≠ 0 ∧ idx = tc
  · obtain ⟨hu1, hu2, hu3, hu4⟩ :=
      uploadPhase_quiet env rdir total idx f { k with sc := k.sc + 1 } hconn
    have ht : testPause env tc idx
        (uploadPhase env rdir total idx f { k with sc := k.sc + 1 }).2.2
        = ([Event.log (Msg.testBatchDone tc), Event.confirm, Event.log Msg.continuing], true,
          (uploadPhase env rdir total idx f { k with sc := k.sc + 1 }).2.2) := by
      simp only [testPause, if_pos htc, hreply, if_true]
    obtain ⟨hd1, hd2⟩ := interDelay_quiet env delay total idx
      (uploadPhase env rdir total idx f { k with sc := k.sc + 1 }).2.2 hstop hconn
    obtain ⟨hdI, hdU, hdC⟩ := countP_flags_zero _ hd2
    simp only [step, hstop k.sc, Bool.false_eq_true, if_false, hu1, Bool.true_eq_false, ht]
    rw [if_pos htc]
    simp [List.countP_append, List.countP_cons, hu2, hu4, hu3, hd1, hdI, hdU, hdC,
      isIter, isUp, isSkipEv, isConfirmEv]
  · obtain ⟨hu1, hu2, hu3, hu4⟩ :=
      uploadPhase_quiet env rdir total idx f { k with sc := k.sc + 1 } hconn
    have ht := testPause_not_fire env tc idx
      (uploadPhase env rdir total idx f { k with sc := k.sc + 1 }).2.2 htc
    obtain ⟨hd1, hd2⟩ := interDelay_quiet env delay total idx
      (uploadPhase env rdir total idx f { k with sc := k.sc + 1 }).2.2 hstop hconn
    obtain ⟨hdI, hdU, hdC⟩ := countP_flags_zero _ hd2
    simp only [step, hstop k.sc, Bool.false_eq_true, if_false, hu1, Bool.true_eq_false, ht]
    simp [List.countP_append, hu2, hu4, hu3, hd1, hdI, hdU, hdC, htc]

theorem loopGo_nominal (env : Env) (rdir : String) (delay tc total : Nat)
    (hstop : ∀ n, env.stop n = false) (hconn : ∀ n, env.connectOk n = true)
    (hreply : env.reply = true) :
    ∀ fs idx k, ((loopGo env rdir delay tc total fs idx k).1).countP isIter = fs.length := by
  intro fs
  induction fs with
  | nil => intro idx k; simp [loopGo]
  | cons f fs ih =>
      intro idx k
      obtain ⟨h1, h2, -, -⟩ := step_nominal env rdir delay tc total idx f k hstop hconn hreply
      simp only [loopGo, h1, if_true]
      simp [List.countP_append, h2, ih]
      omega

theorem stopped_false_of_stopfree (env : Env) (cfg : Cfg)
    (hstop : ∀ n, env.stop n = false) : stoppedDuringDelay env cfg = false := by
  simp [stoppedDuringDelay, hstop]

theorem preDelay_countP_isIter (env : Env) (cfg : Cfg) (hp : (preDelay env cfg).2.1 = true) :
    ((preDelay env cfg).1).countP isIter = 0 :=
  countP_zero_of _ _ fun e he => by
    rcases preDelay_ok_events env cfg hp e he with ht | ht
    · exact (timer_not_classified e ht).2.2.2.2.2.2
    · subst ht; rfl

/-- Upload failure on an existing file with a live transport: logged and the
loop continues with the next file. -/
theorem uploadPhase_error_continues (env : Env) (rdir : String) (total idx : Nat)
    (f : String) (k : Counters) (e : String) (hex : env.fileExists f = true)
    (hact : env.active k.ac = true) (herr : env.uploadErr k.uc = some e) :
    uploadPhase env rdir total idx f k
      = ([Event.log (Msg.uploading idx total (basename f) (remotePath rdir (basename f))),
          Event.log (Msg.uploadError idx total e)], true,
        { k with ac := k.ac + 1, uc := k.uc + 1 }) := by
  simp [uploadPhase, hex, hact, doUpload, herr]

/-- A failed reconnect before an upload unwinds the whole remaining batch:
the loop produces only the two reconnect logs and stops. -/
theorem loopGo_reconnect_fail (env : Env) (rdir : String) (delay tc total idx : Nat)
    (f : String) (fs : List String) (k : Counters) (hstop : env.stop k.sc = false)
    (hex : env.fileExists f = true) (hact : env.active k.ac = false)
    (hconn : env.connectOk k.cc = false) :
    (loopGo env rdir delay tc total (f :: fs) idx k).1
      = [Event.log Msg.connLost, Event.log (Msg.reconnectFailed (env.connectErr k.cc))] := by
  simp [loopGo, step, uploadPhase, hstop, hex, hact, hconn]

theorem loopGo_cons_continue (env : Env) (rdir : String) (delay tc total idx : Nat)
    (f : String) (fs : List String) (k : Counters)
    (h : (step env rdir delay tc total idx f k).2.1 = true) :
    (loopGo env rdir delay tc total (f :: fs) idx k).1
      = (step env rdir delay tc total idx f k).1
        ++ (loopGo env rdir delay tc total fs (idx + 1)
            (step env rdir delay tc total idx f k).2.2).1 := by
  simp only [loopGo, h, if_true]

theorem loopGo_cons_break (env : Env) (rdir : String) (delay tc total idx : Nat)
    (f : String) (fs : List String) (k : Counters)
    (h : (step env rdir delay tc total idx f k).2.1 = false) :
    (loopGo env rdir delay tc total (f :: fs) idx k).1
      = (step env rdir delay tc total idx f k).1 := by
  simp only [loopGo, h]
  simp

/-- A quiet iteration away from the checkpoint index: the loop continues, one
upload log iff the file exists, no confirmation. -/
theorem step_off_checkpoint (env : Env) (rdir : String) (delay tc total idx : Nat)
    (f : String) (k : Counters) (hstop : ∀ n, env.stop n = false)
    (hconn : ∀ n, env.connectOk n = true) (hnt : ¬(tc ≠ 0 ∧ idx = tc)) :
    (step env rdir delay tc total idx f k).2.1 = true ∧
      ((step env rdir delay tc total idx f k).1).countP isUp
        = (if env.fileExists f then 1 else 0) ∧
      ((step env rdir delay tc total idx f k).1).countP isConfirmEv = 0 := by
  obtain ⟨hu1, hu2, hu3, hu4⟩ :=
    uploadPhase_quiet env rdir total idx f { k with sc := k.sc + 1 } hconn
  have ht := testPause_not_fire env tc idx
    (uploadPhase env rdir total idx f { k with sc := k.sc + 1 }).2.2 hnt
  obtain ⟨hd1, hd2⟩ := interDelay_quiet env delay total idx
    (uploadPhase env rdir total idx f { k with sc := k.sc + 1 }).2.2 hstop hconn
  obtain ⟨hdI, hdU, hdC⟩ := countP_flags_zero _ hd2
  simp only [step, hstop k.sc, Bool.false_eq_true, if_false, hu1, Bool.true_eq_false, ht]
  simp [List.countP_append, hu4, hu3, hd1, hdU, hdC]

/-- Counting uploads and confirmations in the quiet loop once the checkpoint
index has been passed. -/
theorem loopGo_after_checkpoint (env : Env) (rdir : String) (delay tc total : Nat)
    (hstop : ∀ n, env.stop n = false) (hconn : ∀ n, env.connectOk n = true) :
    ∀ fs idx k, tc < idx → (∀ f ∈ fs, env.fileExists f = true) →
      ((loopGo env rdir delay tc total fs idx k).1).countP isUp = fs.length ∧
        ((loopGo env rdir delay tc total fs idx k).1).countP isConfirmEv = 0 := by
  intro fs
  induction fs with
  | nil => intro idx k hlt hex; simp [loopGo]
  | cons f fs ih =>
      intro idx k hlt hex
      have hnt : ¬(tc ≠ 0 ∧ idx = tc) := by
        rintro ⟨-, h⟩
        omega
      obtain ⟨h1, h2, h3⟩ := step_off_checkpoint env rdir delay tc total idx f k hstop hconn hnt
      have hexf : env.fileExists f = true := hex f (List.mem_cons_self f fs)
      obtain ⟨ihU, ihC⟩ := ih (idx + 1) (step env rdir delay tc total idx f k).2.2
        (by omega) (fun g hg => hex g (List.mem_cons_of_mem f hg))
      rw [loopGo_cons_continue env rdir delay tc total idx f fs k h1]
      constructor
      · rw [List.countP_append, h2, if_pos hexf, ihU]
        simp only [List.length_cons]
        omega
      · rw [List.countP_append, h3, ihC]

/-- The quiet iteration at the checkpoint index: the upload-phase events plus
the test-batch log form a block `U` that precedes the confirmation; a `False`
decision stops the loop right after the stop log, a `True` decision continues
through the inter-file delay. -/
theorem step_at_checkpoint (env : Env) (rdir : String) (delay tc total idx : Nat)
    (f : String) (k : Counters) (hstop : ∀ n, env.stop n = false)
    (hconn : ∀ n, env.connectOk n = true) (hex : env.fileExists f = true)
    (h0 : tc ≠ 0) (hidx : idx = tc) :
    ∃ U, U.countP isUp = 1 ∧ U.countP isConfirmEv = 0 ∧
      U.getLast? = some (Event.log (Msg.testBatchDone tc)) ∧
      (env.reply = false →
        (step env rdir delay tc total idx f k).2.1 = false ∧
        (step env rdir delay tc total idx f k).1
          = U ++ Event.confirm :: [Event.log Msg.stoppedAfterTest]) ∧
      (env.reply = true →
        ∃ D, (step env rdir delay tc total idx f k).2.1 = true ∧
          (step env rdir delay tc total idx f k).1
            = U ++ Event.confirm :: (Event.log Msg.continuing :: D) ∧
          D.countP isUp = 0 ∧ D.countP isConfirmEv = 0) := by
  obtain ⟨hu1, hu2, hu3, hu4⟩ :=
    uploadPhase_quiet env rdir total idx f { k with sc := k.sc + 1 } hconn
  have hf : tc ≠ 0 ∧ idx = tc := ⟨h0, hidx⟩
  refine ⟨(uploadPhase env rdir total idx f { k with sc := k.sc + 1 }).1
      ++ [Event.log (Msg.testBatchDone tc)], ?_, ?_, ?_, ?_, ?_⟩
  · rw [List.countP_append, hu4, hex]
    simp [List.countP_cons, isUp]
  · rw [List.countP_append, hu3]
    simp [List.countP_cons, isConfirmEv]
  · rw [List.getLast?_concat]
  · intro hr
    have ht : testPause env tc idx
        (uploadPhase env rdir total idx f { k with sc := k.sc + 1 }).2.2
        = ([Event.log (Msg.testBatchDone tc), Event.confirm, Event.log Msg.stoppedAfterTest],
          false, (uploadPhase env rdir total idx f { k with sc := k.sc + 1 }).2.2) := by
      simp only [testPause, if_pos hf, hr, Bool.false_eq_true, if_false]
    constructor
    · simp only [step, hstop k.sc, Bool.false_eq_true, if_false, hu1, Bool.true_eq_false, ht]
      simp
    · simp only [step, hstop k.sc, Bool.false_eq_true, if_false, hu1, Bool.true_eq_false, ht]
      simp [List.append_assoc]
  · intro hr
    have ht : testPause env tc idx
        (uploadPhase env rdir total idx f { k with sc := k.sc + 1 }).2.2
        = ([Event.log (Msg.testBatchDone tc), Event.confirm, Event.log Msg.continuing],
          true, (uploadPhase env rdir total idx f { k with sc := k.sc + 1 }).2.2) := by
      simp only [testPause, if_pos hf, hr, if_true]
    obtain ⟨hd1, hd2⟩ := interDelay_quiet env delay total idx
      (uploadPhase env rdir total idx f { k with sc := k.sc + 1 }).2.2 hstop hconn
    obtain ⟨-, hdU, hdC⟩ := countP_flags_zero _ hd2
    refine ⟨(interDelay env delay total idx
        (uploadPhase env rdir total idx f { k with sc := k.sc + 1 }).2.2).1, ?_, ?_, hdU, hdC⟩
    · simp only [step, hstop k.sc, Bool.false_eq_true, if_false, hu1, Bool.true_eq_false, ht]
      simp [hd1]
    · simp only [step, hstop k.sc, Bool.false_eq_true, if_false, hu1, Bool.true_eq_false, ht]
      simp [List.append_assoc]

/-- The quiet loop containing the checkpoint index splits around the single
confirmation event. -/
theorem loopGo_checkpoint_split (env : Env) (rdir : String) (delay tc total : Nat)
    (hstop : ∀ n, env.stop n = false) (hconn : ∀ n, env.connectOk n = true)
    (h0 : tc ≠ 0) :
    ∀ fs idx k, (∀ f ∈ fs, env.fileExists f = true) → idx ≤ tc → tc < idx + fs.length →
      ∃ A B, (loopGo env rdir delay tc total fs idx k).1 = A ++ Event.confirm :: B ∧
        A.countP isConfirmEv = 0 ∧ A.countP isUp = tc + 1 - idx ∧
        A.getLast? = some (Event.log (Msg.testBatchDone tc)) ∧
        (env.reply = false → B = [Event.log Msg.stoppedAfterTest]) ∧
        (env.reply = true → B.countP isConfirmEv = 0 ∧
          B.countP isUp = idx + fs.length - (tc + 1)) := by
  intro fs
  induction fs with
  | nil =>
      intro idx k hex hle hlt
      simp only [List.length_nil] at hlt
      omega
  | cons f fs ih =>
      intro idx k hex hle hlt
      have hexf : env.fileExists f = true := hex f (List.mem_cons_self f fs)
      by_cases hidx : idx = tc
      · obtain ⟨U, hU1, hU2, hU3, himpF, himpT⟩ :=
          step_at_checkpoint env rdir delay tc total idx f k hstop hconn hexf h0 hidx
        have hUidx : tc + 1 - idx = 1 := by omega
        cases hr : env.reply
        · obtain ⟨hbrk, hev⟩ := himpF hr
          refine ⟨U, [Event.log Msg.stoppedAfterTest], ?_, hU2, ?_, hU3, fun _ => rfl, ?_⟩
          · rw [loopGo_cons_break env rdir delay tc total idx f fs k hbrk, hev]
          · rw [hUidx]
            exact hU1
          · intro h
            exact absurd h (by simp)
        · obtain ⟨D, hcont, hev, hDU, hDC⟩ := himpT hr
          obtain ⟨hRU, hRC⟩ := loopGo_after_checkpoint env rdir delay tc total hstop hconn
            fs (idx + 1) (step env rdir delay tc total idx f k).2.2 (by omega)
            (fun g hg => hex g (List.mem_cons_of_mem f hg))
          refine ⟨U, Event.log Msg.continuing ::
              (D ++ (loopGo env rdir delay tc total fs (idx + 1)
                (step env rdir delay tc total idx f k).2.2).1), ?_, hU2, ?_, hU3, ?_, ?_⟩
          · rw [loopGo_cons_continue env rdir delay tc total idx f fs k hcont, hev]
            simp [List.append_assoc]
          · rw [hUidx]
            exact hU1
          · intro h
            exact absurd h (by simp)
          · intro _
            constructor
            · simp [List.countP_cons, List.countP_append, hDC, hRC, isConfirmEv]
            · simp only [List.countP_cons, List.countP_append, hDU, hRU]
              simp [isUp, List.length_cons]
              omega
      · have hnt : ¬(tc ≠ 0 ∧ idx = tc) := by
          rintro ⟨-, h⟩
          exact hidx h
        obtain ⟨h1, h2, h3⟩ :=
          step_off_checkpoint env rdir delay tc total idx f k hstop hconn hnt
        obtain ⟨A, B, hAB, hA1, hA2, hA3, hB1, hB2⟩ :=
          ih (idx + 1) (step env rdir delay tc total idx f k).2.2
            (fun g hg => hex g (List.mem_cons_of_mem f hg)) (by omega)
            (by simp only [List.length_cons] at hlt; omega)
        refine ⟨(step env rdir delay tc total idx f k).1 ++ A, B, ?_, ?_, ?_, ?_, hB1, ?_⟩
        · rw [loopGo_cons_continue env rdir delay tc total idx f fs k h1, hAB]
          simp [List.append_assoc]
        · rw [List.countP_append, h3, hA1]
        · rw [List.countP_append, h2, if_pos hexf, hA2]
          omega
        · have hAne : A ≠ [] := by
            intro h
            rw [h] at hA3
            simp at hA3
          rw [List.getLast?_append, hA3]
          rfl
        · intro hr
          obtain ⟨hc, hu⟩ := hB2 hr
          refine ⟨hc, ?_⟩
          rw [hu]
          simp only [List.length_cons]
          omega

theorem preDelay_countP_flags (env : Env) (cfg : Cfg) (hp : (preDelay env cfg).2.1 = true) :
    ((preDelay env cfg).1).countP isConfirmEv = 0 ∧ ((preDelay env cfg).1).countP isUp = 0 :=
  ⟨countP_zero_of _ _ fun e he => by
      rcases preDelay_ok_events env cfg hp e he with ht | ht
      · exact (timer_not_classified e ht).2.2.1
      · subst ht; rfl,
    countP_zero_of _ _ fun e he => by
      rcases preDelay_ok_events env cfg hp e he with ht | ht
      · exact (timer_not_classified e ht).1
      · subst ht; rfl⟩

/-! ## Claim theorems -/

/-- C1: the terminal event's boolean flag is `false` exactly when the run was
cancelled during the pre-start wait or the initial connect failed; every other
termination path (natural completion, user stop mid-batch, checkpoint-declined
stop, reconnect failure mid-batch — all of which reach the `finally` block)
ends with flag `true`. -/
theorem done_flag_characterization (env : Env) (cfg : Cfg) (files : List String) :
    (run env cfg files).getLast?
      = some (Event.done ((!stoppedDuringDelay env cfg) && env.connectOk 0)) := by
  obtain ⟨X, heq, -⟩ := run_shape env cfg files
  rw [heq, List.getLast?_concat]

/-- C6: a single invocation of `run` emits exactly one terminal `done` event,
and it is the last event emitted — no event follows it on any exit path. -/
theorem single_terminal_done (env : Env) (cfg : Cfg) (files : List String) :
    ∃ b, (run env cfg files).getLast? = some (Event.done b) ∧
      (run env cfg files).countP isDoneEv = 1 := by
  obtain ⟨X, heq, hX⟩ := run_shape env cfg files
  refine ⟨(!stoppedDuringDelay env cfg) && env.connectOk 0, ?_, ?_⟩
  · rw [heq, List.getLast?_concat]
  · rw [heq]
    simp [List.countP_append, List.countP_cons, hX, isDoneEv]

/-- C4: with a positive start delay, a cancellation observed by one of the
stop-flag checks made during the pre-start wait makes the run end with
`done false`, and no session is ever attempted (no connect-stage event). -/
theorem cancel_during_start_delay (env : Env) (cfg : Cfg) (files : List String)
    (hD : 0 < cfg.start_delay_min)
    (hstop : ∃ i, i < cfg.start_delay_min * 60 ∧ env.stop i = true) :
    (run env cfg files).getLast? = some (Event.done false) ∧
      ∀ e ∈ run env cfg files, isConnectEv e = false := by
  have hsd : stoppedDuringDelay env cfg = true := by
    obtain ⟨i, hi, hs⟩ := hstop
    unfold stoppedDuringDelay
    rw [Bool.not_eq_true', decide_eq_false_iff_not]
    intro hall
    have hx := hall i hi
    rw [hs] at hx
    exact absurd hx (by simp)
  have hpfail : (preDelay env cfg).2.1 = false := by
    rw [preDelay_ok, hsd]
    rfl
  have hrun : run env cfg files =
      Event.log (Msg.scheduled env.etaStr cfg.start_delay_min) ::
        ((sleepAux env "⏳ Starting in" 0 (cfg.start_delay_min * 60) 0).1 ++
          [Event.log Msg.stoppedInitial, Event.done false]) := by
    rw [run_stopped env cfg files hpfail, preDelay_fail_eq env cfg hpfail]
  constructor
  · rw [hrun]
    have hassoc :
        Event.log (Msg.scheduled env.etaStr cfg.start_delay_min) ::
            ((sleepAux env "⏳ Starting in" 0 (cfg.start_delay_min * 60) 0).1 ++
              [Event.log Msg.stoppedInitial, Event.done false])
          = (Event.log (Msg.scheduled env.etaStr cfg.start_delay_min) ::
              ((sleepAux env "⏳ Starting in" 0 (cfg.start_delay_min * 60) 0).1 ++
                [Event.log Msg.stoppedInitial])) ++ [Event.done false] := by
      simp
    rw [hassoc, List.getLast?_concat]
  · intro e he
    rw [hrun] at he
    rcases List.mem_cons.mp he with h1 | h1
    · subst h1; rfl
    · rcases List.mem_append.mp h1 with h2 | h2
      · exact (timer_not_classified e (sleep_timers env _ 0 _ 0 e h2)).2.2.2.2.1
      · rcases List.mem_cons.mp h2 with h3 | h3
        · subst h3; rfl
        · rw [List.mem_singleton] at h3
          subst h3; rfl

/-- C4 witness: stop already requested, one-minute start delay. -/
theorem cancel_during_start_delay_witness :
    (run envStopAlways cfgDelay1 []).getLast? = some (Event.done false) :=
  (cancel_during_start_delay envStopAlways cfgDelay1 [] (by decide)
    ⟨0, by decide, rfl⟩).1

/-- C5 counterexample: a run whose pre-start countdown wait is interrupted by
cancellation emits a countdown tick but never an empty (clearing) timer event —
the claimed clear-countdown signal is missing on the cancellation path. -/
theorem clear_timer_missing_on_cancel :
    run envStopEarly cfgDelay1 []
        = [Event.log (Msg.scheduled "12:00:00" 1),
            Event.timer "⏳ Starting in  01m 00s",
            Event.log Msg.stoppedInitial, Event.done false] ∧
      Event.timer "" ∉ run envStopEarly cfgDelay1 [] := by
  constructor
  · decide
  · decide

/-- C5 amended: a labeled countdown wait emits the clearing empty timer event
exactly when it runs its full duration; a wait interrupted by cancellation
emits no empty timer event at all (the observer instead clears the label when
the terminal `done` event arrives). -/
theorem clear_timer_iff_full_wait (env : Env) (tp : String) (total s sc : Nat)
    (h : tp ≠ "") :
    ((sleepAux env tp total s sc).2.1 = true →
        ((sleepAux env tp total s sc).1).getLast? = some (Event.timer "")) ∧
      ((sleepAux env tp total s sc).2.1 = false →
        Event.timer "" ∉ (sleepAux env tp total s sc).1) :=
  ⟨sleep_last env tp total h s sc, sleep_no_clear env tp total h s sc⟩

/-- C5 amended witness: a completed one-second wait ends with the clearing
timer event. -/
theorem clear_timer_iff_full_wait_witness :
    ((sleepAux envQuiet "x" 0 1 0).1).getLast? = some (Event.timer "") :=
  (clear_timer_iff_full_wait envQuiet "x" 0 1 0 (by decide)).1 rfl

/-- C7: with an empty file list (and the initial connect succeeding), the run
emits exactly one `done`, with flag `true`, as its last event, and no per-file
event at all — the loop performs zero iterations. -/
theorem empty_batch_clean_finish (env : Env) (cfg : Cfg)
    (hsd : stoppedDuringDelay env cfg = false) (hc : env.connectOk 0 = true) :
    (run env cfg []).countP isDoneEv = 1 ∧
      (run env cfg []).getLast? = some (Event.done true) ∧
      ∀ e ∈ run env cfg [], isPerFile e = false := by
  have hp : (preDelay env cfg).2.1 = true := by
    rw [preDelay_ok, hsd]
    rfl
  have hrun := run_proceed env cfg [] hp hc
  simp only [loopGo, List.length_nil, List.append_nil] at hrun
  have hpre : ∀ e ∈ (preDelay env cfg).1, isPerFile e = false ∧ isDoneEv e = false := by
    intro e he
    rcases preDelay_ok_events env cfg hp e he with ht | ht
    · exact ⟨(timer_not_classified e ht).2.2.2.2.2.1, (timer_not_classified e ht).2.2.2.1⟩
    · subst ht; exact ⟨rfl, rfl⟩
  refine ⟨?_, ?_, ?_⟩
  · rw [hrun]
    have h0 : ((preDelay env cfg).1).countP isDoneEv = 0 :=
      countP_zero_of _ _ fun e he => (hpre e he).2
    simp [List.countP_append, List.countP_cons, h0, isDoneEv]
  · rw [hrun, List.getLast?_concat]
  · intro e he
    rw [hrun] at he
    rcases List.mem_append.mp he with h1 | h1
    · rcases List.mem_append.mp h1 with h2 | h2
      · exact (hpre e h2).1
      · rcases List.mem_cons.mp h2 with h3 | h3
        · subst h3; rfl
        · rw [List.mem_singleton] at h3
          subst h3; rfl
    · rw [List.mem_singleton] at h1
      subst h1; rfl

/-- C7 witness: quiet environment, no delays. -/
theorem empty_batch_clean_finish_witness :
    (run envQuiet cfgPlain []).countP isDoneEv = 1 :=
  (empty_batch_clean_finish envQuiet cfgPlain (by decide) rfl).1

/-- C9: requesting cancellation twice (at check-times `t1 ≤ t2`) drives the
stop flag — and hence the whole observable run — exactly as requesting it
once at `t1` does: `stop()` only sets a one-way flag. -/
theorem cancel_idempotent (t1 t2 : Nat) (h : t1 ≤ t2) (env : Env) (cfg : Cfg)
    (files : List String) :
    run { env with stop := stopFlagFrom [t1, t2] } cfg files
      = run { env with stop := stopFlagFrom [t1] } cfg files := by
  have hfl : stopFlagFrom [t1, t2] = stopFlagFrom [t1] := by
    funext n
    simp only [stopFlagFrom, List.foldl_cons, List.foldl_nil, setStop]
    by_cases h2 : t2 ≤ n
    · have h1n : t1 ≤ n := le_trans h h2
      simp [h1n, h2]
    · simp [h2]
  rw [hfl]

/-- C9 witness: two immediate cancel requests behave as one. -/
theorem cancel_idempotent_witness :
    run { envQuiet with stop := stopFlagFrom [0, 1] } cfgPlain []
      = run { envQuiet with stop := stopFlagFrom [0] } cfgPlain [] :=
  cancel_idempotent 0 1 (by decide) envQuiet cfgPlain []

/-- C3: per-file errors never unwind the batch, connection-level errors always
do.  (1) In a run with no cancellation, successful connects, and a continuing
checkpoint answer, every file is iterated (one skip-or-upload marker each)
whatever the per-file upload failures and missing files.  (2) An upload
failure is logged and the iteration continues.  (3) An initial connect failure
terminates the run with `done false` and no file is iterated.  (4) A reconnect
failure mid-batch unwinds the remaining loop immediately. -/
theorem per_file_vs_connection_errors :
    (∀ (env : Env) (cfg : Cfg) (files : List String),
        (∀ n, env.stop n = false) → (∀ n, env.connectOk n = true) → env.reply = true →
        (run env cfg files).countP isIter = files.length) ∧
    (∀ (env : Env) (rdir : String) (total idx : Nat) (f : String) (k : Counters) (e : String),
        env.fileExists f = true → env.active k.ac = true → env.uploadErr k.uc = some e →
        uploadPhase env rdir total idx f k
          = ([Event.log (Msg.uploading idx total (basename f) (remotePath rdir (basename f))),
              Event.log (Msg.uploadError idx total e)], true,
            { k with ac := k.ac + 1, uc := k.uc + 1 })) ∧
    (∀ (env : Env) (cfg : Cfg) (files : List String),
        (∀ n, env.stop n = false) → env.connectOk 0 = false →
        (run env cfg files).countP isIter = 0 ∧
          (run env cfg files).getLast? = some (Event.done false)) ∧
    (∀ (env : Env) (rdir : String) (delay tc total idx : Nat) (f : String)
        (fs : List String) (k : Counters),
        env.stop k.sc = false → env.fileExists f = true → env.active k.ac = false →
        env.connectOk k.cc = false →
        (loopGo env rdir delay tc total (f :: fs) idx k).1
          = [Event.log Msg.connLost, Event.log (Msg.reconnectFailed (env.connectErr k.cc))]) := by
  refine ⟨?_, ?_, ?_, ?_⟩
  · intro env cfg files hstop hconn hreply
    have hp : (preDelay env cfg).2.1 = true := by
      rw [preDelay_ok, stopped_false_of_stopfree env cfg hstop]
      rfl
    rw [run_proceed env cfg files hp (hconn 0)]
    have hpre := preDelay_countP_isIter env cfg hp
    have hloop := loopGo_nominal env (rstripSlash cfg.remote_dir)
      (if cfg.use_delay then cfg.delay else 0) (if cfg.use_test then cfg.test_n else 0)
      files.length hstop hconn hreply files 1 ⟨(preDelay env cfg).2.2, 1, 0, 0⟩
    simp [List.countP_append, List.countP_cons, hpre, hloop, isIter, isUp, isSkipEv]
  · intro env rdir total idx f k e hex hact herr
    exact uploadPhase_error_continues env rdir total idx f k e hex hact herr
  · intro env cfg files hstop hc
    have hp : (preDelay env cfg).2.1 = true := by
      rw [preDelay_ok, stopped_false_of_stopfree env cfg hstop]
      rfl
    rw [run_connfail env cfg files hp hc]
    constructor
    · have hpre := preDelay_countP_isIter env cfg hp
      simp [List.countP_append, List.countP_cons, hpre, isIter, isUp, isSkipEv]
    · rw [List.getLast?_append]
      rfl
  · intro env rdir delay tc total idx f fs k hstop hex hact hconn
    exact loopGo_reconnect_fail env rdir delay tc total idx f fs k hstop hex hact hconn

/-- C3 witness: a quiet two-file run iterates both files; with a failing
connect, nothing is iterated. -/
theorem per_file_vs_connection_errors_witness :
    (run envQuiet cfgPlain ["a", "b"]).countP isIter = 2 ∧
      (run envNoConnect cfgPlain ["a", "b"]).countP isIter = 0 :=
  ⟨per_file_vs_connection_errors.1 envQuiet cfgPlain ["a", "b"]
      (fun _ => rfl) (fun _ => rfl) rfl,
    (per_file_vs_connection_errors.2.2.1 envNoConnect cfgPlain ["a", "b"]
      (fun _ => rfl) rfl).1⟩

/-- C8: the inter-file delay phase.  The countdown wait runs iff the effective
delay is positive, more files remain (`idx < total`), and the stop flag is not
set at its check; its ticks come from the waiter labeled with the next file's
index (`idx + 1`).  After a completed wait, if `delay ≥ 55` (the reconnect
threshold) and the transport reports inactive, exactly one proactive reconnect
is attempted (one connect consumed): its failure breaks the loop, its success
continues; otherwise no reconnect is attempted and the loop continues. -/
theorem inter_file_delay_spec (env : Env) (delay total idx : Nat) (k : Counters) :
    (¬(delay ≠ 0 ∧ idx < total) → interDelay env delay total idx k = ([], true, k)) ∧
    ((delay ≠ 0 ∧ idx < total) → env.stop k.sc = true →
      interDelay env delay total idx k = ([], true, { k with sc := k.sc + 1 })) ∧
    ((delay ≠ 0 ∧ idx < total) → env.stop k.sc = false →
      (∃ rest, (interDelay env delay total idx k).1
          = (sleepAux env "⏱  Next upload in" (idx + 1) delay (k.sc + 1)).1 ++ rest) ∧
      ((sleepAux env "⏱  Next upload in" (idx + 1) delay (k.sc + 1)).2.1 = false →
        (interDelay env delay total idx k).2.1 = false) ∧
      ((sleepAux env "⏱  Next upload in" (idx + 1) delay (k.sc + 1)).2.1 = true →
        (55 ≤ delay → env.active k.ac = false →
          ((interDelay env delay total idx k).2.2.cc = k.cc + 1 ∧
            (env.connectOk k.cc = true → (interDelay env delay total idx k).2.1 = true) ∧
            (env.connectOk k.cc = false → (interDelay env delay total idx k).2.1 = false))) ∧
        ((delay < 55 ∨ env.active k.ac = true) →
          (interDelay env delay total idx k).2.2.cc = k.cc ∧
            (interDelay env delay total idx k).2.1 = true))) := by
  refine ⟨?_, ?_, ?_⟩
  · intro h
    simp only [interDelay]
    rw [if_neg h]
  · intro hcond hstop
    simp only [interDelay]
    rw [if_pos hcond, hstop]
    simp
  · intro hcond hstop
    refine ⟨?_, ?_, ?_⟩
    · simp only [interDelay]
      rw [if_pos hcond, hstop]
      simp only [Bool.false_eq_true, if_false]
      split_ifs with h1 h2 h3 h4
      · exact ⟨[], by simp⟩
      · exact ⟨[Event.timer ""], rfl⟩
      · exact ⟨[Event.timer "", Event.log Msg.reconnectingAfterDelay,
          Event.log Msg.reconnected], by simp⟩
      · exact ⟨[Event.timer "", Event.log Msg.reconnectingAfterDelay,
          Event.log (Msg.reconnectFailed (env.connectErr k.cc))], by simp⟩
      · exact ⟨[Event.timer ""], rfl⟩
    · intro hsf
      simp [interDelay, hcond, hstop, hsf]
    · intro hst
      constructor
      · intro h55 hact
        refine ⟨?_, ?_, ?_⟩
        · cases hc : env.connectOk k.cc <;>
            simp [interDelay, hcond, hstop, hst, h55, hact, hc]
        · intro hc
          simp [interDelay, hcond, hstop, hst, h55, hact, hc]
        · intro hc
          simp [interDelay, hcond, hstop, hst, h55, hact, hc]
      · intro hOr
        rcases hOr with h55 | hact
        · have h55n : ¬55 ≤ delay := by omega
          constructor <;> simp [interDelay, hcond, hstop, hst, h55n]
        · by_cases h55 : 55 ≤ delay
          · constructor <;> simp [interDelay, hcond, hstop, hst, h55, hact]
          · constructor <;> simp [interDelay, hcond, hstop, hst, h55]

/-- C8 witness: no effective delay, no wait, no reconnect, loop continues. -/
theorem inter_file_delay_spec_witness :
    interDelay envQuiet 0 3 1 ⟨0, 0, 0, 0⟩ = ([], true, ⟨0, 0, 0, 0⟩) :=
  (inter_file_delay_spec envQuiet 0 3 1 ⟨0, 0, 0, 0⟩).1 (by simp)

/-- C10: a missing local file skips only the liveness check and the upload —
the iteration reduces to the skip log with no oracle consumption and no break,
after which the checkpoint gate and the inter-file delay execute exactly as
the loop body composes them for any file, from the same counters; and the
checkpoint gate emits its single confirmation whenever `idx` equals the
checkpoint parameter, independent of the file's existence. -/
theorem missing_file_skips_only_upload :
    (∀ (env : Env) (rdir : String) (total idx : Nat) (f : String) (k : Counters),
        env.fileExists f = false →
        uploadPhase env rdir total idx f k
          = ([Event.log (Msg.skip idx total (basename f))], true, k)) ∧
    (∀ (env : Env) (rdir : String) (delay tc total idx : Nat) (f : String) (k : Counters),
        env.stop k.sc = false → env.fileExists f = false →
        step env rdir delay tc total idx f k
          = (let t := testPause env tc idx { k with sc := k.sc + 1 }
             if t.2.1 = false then
               (Event.log (Msg.skip idx total (basename f)) :: t.1, false, t.2.2)
             else
               let d := interDelay env delay total idx t.2.2
               (Event.log (Msg.skip idx total (basename f)) :: (t.1 ++ d.1), d.2.1, d.2.2))) ∧
    (∀ (env : Env) (tc idx : Nat) (k : Counters), tc ≠ 0 → idx = tc →
        ((testPause env tc idx k).1).countP isConfirmEv = 1) := by
  refine ⟨?_, ?_, ?_⟩
  · intro env rdir total idx f k h
    exact uploadPhase_missing env rdir total idx f k h
  · intro env rdir delay tc total idx f k hstop hex
    have hu := uploadPhase_missing env rdir total idx f { k with sc := k.sc + 1 } hex
    cases hts : (testPause env tc idx { k with sc := k.sc + 1 }).2.1 <;>
      simp [step, hstop, hu, hts]
  · intro env tc idx k h1 h2
    have hf : tc ≠ 0 ∧ idx = tc := ⟨h1, h2⟩
    simp only [testPause, if_pos hf]
    cases hr : env.reply <;>
      simp [List.countP_cons, isConfirmEv]

/-- C10 witness: a missing file reduces to its skip log and continues. -/
theorem missing_file_skips_only_upload_witness :
    uploadPhase envNoFile "" 1 1 "x" ⟨0, 0, 0, 0⟩
      = ([Event.log (Msg.skip 1 1 (basename "x"))], true, ⟨0, 0, 0, 0⟩) :=
  missing_file_skips_only_upload.1 envNoFile "" 1 1 "x" ⟨0, 0, 0, 0⟩ rfl

/-- C2 counterexample: a batch of `N = 1` file with checkpoint parameter
`k = 1` (so `1 ≤ k ≤ N`) whose run emits zero `confirm` events, because the
user's cancellation stops the loop before the first file — the claim's
"exactly one ConfirmationRequested for every such batch" fails as stated. -/
theorem checkpoint_not_unconditional :
    cfgTest1.use_test = true ∧ cfgTest1.test_n = 1 ∧
      1 ≤ (["f1"] : List String).length ∧
      (run envStopAlways cfgTest1 ["f1"]).countP isConfirmEv = 0 :=
  ⟨rfl, rfl, by decide, by decide⟩

/-- C2 amended: provided the run is not cancelled, every connect attempt
succeeds, and every file exists, a batch of `N` files with checkpoint
parameter `k` (`1 ≤ k ≤ N`) emits exactly one confirmation request,
positioned right after the k-th file's upload attempt (exactly `k`
upload-attempt logs precede it and the test-batch log is the event just
before it); a `False` decision stops the run with no further upload attempt
and a clean `done true` finish, and a `True` decision resumes the loop, which
attempts the remaining `N - k` files. -/
theorem checkpoint_once_nominal (env : Env) (cfg : Cfg) (files : List String) (kc : Nat)
    (hstop : ∀ n, env.stop n = false) (hconn : ∀ n, env.connectOk n = true)
    (hex : ∀ f ∈ files, env.fileExists f = true)
    (hut : cfg.use_test = true) (htn : cfg.test_n = kc)
    (h1 : 1 ≤ kc) (h2 : kc ≤ files.length) :
    (run env cfg files).countP isConfirmEv = 1 ∧
      ∃ A B, run env cfg files = A ++ Event.confirm :: B ∧
        A.countP isConfirmEv = 0 ∧ B.countP isConfirmEv = 0 ∧
        A.countP isUp = kc ∧
        A.getLast? = some (Event.log (Msg.testBatchDone kc)) ∧
        (env.reply = false → B.countP isUp = 0 ∧ B.getLast? = some (Event.done true)) ∧
        (env.reply = true → B.countP isUp = files.length - kc) := by
  have hp : (preDelay env cfg).2.1 = true := by
    rw [preDelay_ok, stopped_false_of_stopfree env cfg hstop]
    rfl
  have htc : (if cfg.use_test then cfg.test_n else 0) = kc := by
    simp [hut, htn]
  have hrun := run_proceed env cfg files hp (hconn 0)
  rw [htc] at hrun
  obtain ⟨A, B, hAB, hA1, hA2, hA3, hB1, hB2⟩ :=
    loopGo_checkpoint_split env (rstripSlash cfg.remote_dir)
      (if cfg.use_delay then cfg.delay else 0) kc files.length hstop hconn (by omega)
      files 1 ⟨(preDelay env cfg).2.2, 1, 0, 0⟩ hex (by omega) (by omega)
  obtain ⟨hPc, hPu⟩ := preDelay_countP_flags env cfg hp
  have hBc : B.countP isConfirmEv = 0 := by
    cases hr : env.reply
    · rw [hB1 hr]
      rfl
    · exact (hB2 hr).1
  have hrun2 : run env cfg files =
      ((preDelay env cfg).1 ++ [Event.log (Msg.connecting cfg.host cfg.port),
          Event.log (Msg.connected env.home)] ++ A)
        ++ Event.confirm :: (B ++ [Event.done true]) := by
    rw [hrun, hAB]
    simp [List.append_assoc]
  have hAne : A ≠ [] := by
    intro h
    rw [h] at hA3
    simp at hA3
  refine ⟨?_, _, _, hrun2, ?_, ?_, ?_, ?_, ?_, ?_⟩
  · rw [hrun2]
    simp [List.countP_append, List.countP_cons, hPc, hA1, hBc, isConfirmEv]
  · simp [List.countP_append, List.countP_cons, hPc, hA1, isConfirmEv]
  · simp [List.countP_append, List.countP_cons, hBc, isConfirmEv]
  · rw [List.countP_append, List.countP_append, hPu, hA2]
    simp [List.countP_cons, isUp]
  · rw [List.getLast?_append, hA3]
    rfl
  · intro hr
    rw [hB1 hr]
    exact ⟨rfl, rfl⟩
  · intro hr
    rw [List.countP_append, (hB2 hr).2]
    simp [List.countP_cons, isUp, List.length_cons]
    omega

/-- C2 amended witness: two files, checkpoint after the first, quiet run. -/
theorem checkpoint_once_nominal_witness :
    (run envQuiet cfgTest1 ["a", "b"]).countP isConfirmEv = 1 :=
  (checkpoint_once_nominal envQuiet cfgTest1 ["a", "b"] 1 (fun _ => rfl) (fun _ => rfl)
    (fun _ _ => rfl) rfl rfl (by decide) (by decide)).1

end SftpGui
